import Mathlib

/-!
Shallow embedding of the adaptive-refinement engine (`LearnerND` in
`adaptive/learner/learnerND.py`) over exact rational arithmetic.

Conventions of the embedding:
* a point of the domain is a `List ℚ` (the N-tuple used as a dictionary key);
* a simplex is represented by its canonically sorted vertex list, as in the
  source where simplices are `tuple(sorted(simplex))`;
* Python dictionaries keep insertion order, so they are association lists;
* Python sets of points are duplicate-free lists;
* the `heapq` priority structure stores tuples `(-loss, simplex, subsimplex)`;
  it is modelled as a list with push appending and pop extracting a minimal
  entry (heapq pops a minimal entry; among exactly equal keys its choice is
  an implementation detail of the heap layout);
* operations that can raise in Python (IndexError on an empty heap or empty
  bounds list, KeyError on a missing loss-ledger entry) return `Option`,
  `none` marking the raising run;
* `numpy` floats are replaced by exact rationals, `np.inf` by `⊤ : WithTop ℚ`.

The incremental `Triangulation` collaborator imported by the source from
`adaptive.learner.triangulation` is not part of the sources under
verification; following the specification it is treated as an external
service and is modelled abstractly by `TriangulationOps` below.
The embedding covers the isotropic configuration (`anisotropic=False`, the
constructor default): the anisotropic branch of `get_local_transform_matrix`
calls the external least-squares fit and is never reached when the flag is
off, so `get_local_transform_matrix` reduces to the constant scale matrix.
-/

abbrev Pt := List ℚ

abbrev Splx := List Pt

/-- Value told for a sampled point: a real scalar or a vector, mirroring the
Python values accepted by `tell` (a number or an arraylike). -/
inductive Val where
  | scalar (q : ℚ)
  | vec (l : List ℚ)
  deriving DecidableEq, Repr

/-- Lookup in an insertion-ordered association list (a Python dict). -/
def alookup {β : Type} (l : List (Pt × β)) (k : Pt) : Option β :=
  match l with
  | [] => none
  | (a, b) :: rest => if a = k then some b else alookup rest k

/-- Set a key in an insertion-ordered association list: update in place when
present, append when absent (Python dict assignment). -/
def aset {β : Type} (l : List (Pt × β)) (k : Pt) (v : β) : List (Pt × β) :=
  match l with
  | [] => [(k, v)]
  | (a, b) :: rest => if a = k then (k, v) :: rest else (a, b) :: aset rest k v

/-- Remove a key from an association list (`dict.pop(key, None)`). -/
def adel {β : Type} (l : List (Pt × β)) (k : Pt) : List (Pt × β) :=
  match l with
  | [] => []
  | (a, b) :: rest => if a = k then rest else (a, b) :: adel rest k

/-- Association list over simplex keys (used for the loss ledger and the
sub-triangulation dictionary). -/
def slookup {β : Type} (l : List (Splx × β)) (k : Splx) : Option β :=
  match l with
  | [] => none
  | (a, b) :: rest => if a = k then some b else slookup rest k

/-- Set a simplex key (Python dict assignment). -/
def sset {β : Type} (l : List (Splx × β)) (k : Splx) (v : β) : List (Splx × β) :=
  match l with
  | [] => [(k, v)]
  | (a, b) :: rest => if a = k then (k, v) :: rest else (a, b) :: sset rest k v

/-- Remove a simplex key (`dict.pop(key, None)`). -/
def sdel {β : Type} (l : List (Splx × β)) (k : Splx) : List (Splx × β) :=
  match l with
  | [] => []
  | (a, b) :: rest => if a = k then rest else (a, b) :: sdel rest k

/-- Add a point to a Python set modelled as a duplicate-free list. -/
def pinsert (l : List Pt) (p : Pt) : List Pt :=
  if p ∈ l then l else l ++ [p]

/-- Laplace expansion step for `detL`, structurally recursive on the row
count so that concrete determinants reduce in the kernel. -/
def detLAux : ℕ → List (List ℚ) → ℚ
  | 0, _ => 1
  | _, [] => 1
  | n + 1, r :: rs =>
      (List.range r.length).foldr
        (fun j acc =>
          (-1 : ℚ) ^ j * r.getD j 0 *
            detLAux n (rs.map (fun row => row.take j ++ row.drop (j + 1))) + acc)
        0

/-- Laplace expansion determinant of a rational matrix given as a list of
rows; mirrors `np.linalg.det` in exact arithmetic. -/
def detL (rows : List (List ℚ)) : ℚ := detLAux rows.length rows

/-- Absolute value on the rationals, written so that it reduces in the
kernel on concrete inputs. -/
def qabs (q : ℚ) : ℚ := if q < 0 then -q else q

/-- Source function `volume(simplex)`: the matrix of the first rows minus the
last row, its absolute determinant divided by dim factorial. -/
def volumeL (simplex : List Pt) : ℚ :=
  let last := simplex.getLastD []
  let rows := simplex.dropLast.map (fun r => List.zipWith (· - ·) r last)
  let dim := simplex.length - 1
  qabs (detL rows) / (Nat.factorial dim : ℚ)

/-- Source function `uniform_loss(simplex, ys)`: the plain volume, one of the
pluggable loss functions shipped with the learner. -/
def uniform_loss (simplex : List Pt) (_ys : List Val) : ℚ :=
  volumeL simplex

/-- Modelled from the spec: the external incremental Triangulation service of
section 6 together with the geometry-kernel predicates it exposes
(`simplices`, `locate`, `point_in_simplex`, `volume`) and the initial-simplex
search of `find_initial_simplex` (whose rank test and Delaunay call are the
external `np.linalg.matrix_rank` and `scipy.spatial.Delaunay`).  A
triangulation is identified with the list of points inserted into it, in
insertion order; the simplicial complex over those points is the canonical
complex produced by `simplices`, so insertion returns the removed and added
simplices as the symmetric difference of the complexes before and after. -/
structure TriangulationOps where
  simplices : List Pt → List Splx
  locate : List Pt → Pt → Option Splx
  pointInSimplex : Pt → Splx → Bool
  volume : Splx → ℚ
  findInitialSimplex : List Pt → ℕ → Option (List ℕ)

/-- Insertion into the modelled triangulation: the point is appended; the
hint simplex and the transform influence only the internal search of the
external implementation, not the resulting complex. -/
def triAddPoint (t : List Pt) (p : Pt) (_hint : Option Splx)
    (_transform : List (List ℚ)) : List Pt :=
  t ++ [p]

/-- Sort rationals by insertion. -/
def insertSortedQ (x : ℚ) : List ℚ → List ℚ
  | [] => [x]
  | y :: ys => if x ≤ y then x :: y :: ys else y :: insertSortedQ x ys

/-- Insertion sort for rationals. -/
def sortQ (l : List ℚ) : List ℚ := l.foldr insertSortedQ []

/-- Consecutive pairs of a list. -/
def consecPairs : List ℚ → List (ℚ × ℚ)
  | [] => []
  | [_] => []
  | a :: b :: rest => (a, b) :: consecPairs (b :: rest)

/-- First coordinate of a 1-dimensional point. -/
def key1 (p : Pt) : ℚ := p.headD 0

/-- Modelled from the spec: the canonical 1-dimensional instance of the
external Triangulation service.  The complex over a set of 1-D points is the
list of intervals between consecutive distinct coordinates; a query point is
located in the interval containing it; the volume of an interval is its
length. -/
def tri1DOps : TriangulationOps where
  simplices pts :=
    (consecPairs (sortQ (pts.map key1).dedup)).map (fun ab => [[ab.1], [ab.2]])
  locate pts p :=
    ((consecPairs (sortQ (pts.map key1).dedup)).find?
        (fun ab => ab.1 ≤ key1 p && key1 p ≤ ab.2)).map
      (fun ab => [[ab.1], [ab.2]])
  pointInSimplex p S :=
    match (S.map key1) with
    | [a, b] => a ≤ key1 p && key1 p ≤ b
    | _ => false
  volume S := volumeL S
  findInitialSimplex pts _ :=
    match pts with
    | [] => none
    | p0 :: rest =>
        match rest.findIdx? (fun p => key1 p ≠ key1 p0) with
        | none => none
        | some j => some [0, j + 1]

/-- A priority-queue entry `(-loss, home simplex, optional sub-simplex)` as
pushed onto `self._losses_combined`. -/
abbrev Entry := ℚ × Splx × Option Splx

/-- Learner state: the mutable fields of `LearnerND.__init__` that the
refinement engine reads and writes. -/
structure St where
  ndim : ℕ
  bounds : List (ℚ × ℚ)
  data : List (Pt × Val)
  pending : List Pt
  boundsPoints : List Pt
  tri? : Option (List Pt)
  losses : List (Splx × ℚ)
  pendingToSimplex : List (Pt × Splx)
  subtris : List (Splx × List Pt)
  heap : List Entry
  pointTree : List (ℕ × Pt)
  rngStream : ℕ → ℚ
  rngIndex : ℕ

/-- The corner list `itertools.product(*bounds)`: first coordinate varying
slowest. -/
def boundsProduct : List (ℚ × ℚ) → List Pt
  | [] => [[]]
  | (a, b) :: rest =>
      (boundsProduct rest).map (fun p => a :: p) ++
        (boundsProduct rest).map (fun p => b :: p)

/-- Modelled from the spec: the private random generator
`random.Random(1)` of the constructor.  Its output is a fixed deterministic
stream depending only on the constant seed 1; the Mersenne-Twister values
are represented by a fixed concrete rational stream. -/
def mtStream1 : ℕ → ℚ := fun n => 1 / ((n : ℚ) + 3)

/-- The diagonal scale matrix `inv(diag(diff(bounds)))` of the constructor. -/
def scaleMatrix (bounds : List (ℚ × ℚ)) : List (List ℚ) :=
  (List.range bounds.length).map (fun i =>
    (List.range bounds.length).map (fun j =>
      if i = j then 1 / ((bounds.getD i (0, 0)).2 - (bounds.getD i (0, 0)).1)
      else 0))

/-- The rescaled coordinates `np.dot(scale_matrix, point)` used as rtree
keys. -/
def scaledPoint (bounds : List (ℚ × ℚ)) (p : Pt) : Pt :=
  List.zipWith (fun (b : ℚ × ℚ) (x : ℚ) => x / (b.2 - b.1)) bounds p

/-- Constructor state of `LearnerND.__init__`.  The second argument is the
ambient (module-level) source of randomness available at construction time;
the source ignores it and seeds a private generator with the constant 1. -/
def initSt (bounds : List (ℚ × ℚ)) (_globalRandom : ℕ → ℚ) : St :=
  { ndim := bounds.length
    bounds := bounds
    data := []
    pending := []
    boundsPoints := boundsProduct bounds
    tri? := none
    losses := []
    pendingToSimplex := []
    subtris := []
    heap := []
    pointTree := []
    rngStream := mtStream1
    rngIndex := 0 }

/-- Points currently sampled, in insertion order (the `points` property). -/
def dataPoints (s : St) : List Pt := s.data.map Prod.fst

/-- The `tri` property: returns the triangulation when already built; when at
least two points are known and they are not rank-deficient it builds the
triangulation from the initial simplex and the remaining points, caches it,
and — faithfully to the source, whose builder branch has no return
statement — yields `None` on the very call that builds it. -/
def triGet (ops : TriangulationOps) (s : St) : Option (List Pt) × St :=
  match s.tri? with
  | some t => (some t, s)
  | none =>
      if s.data.length < 2 then (none, s)
      else
        match ops.findInitialSimplex (dataPoints s) s.ndim with
        | none => (none, s)
        | some idxs =>
            let pts := dataPoints s
            let initPts := idxs.filterMap (fun i => pts.get? i)
            let toAdd := ((List.range pts.length).filter
                (fun i => ¬ i ∈ idxs)).filterMap (fun i => pts.get? i)
            let t := toAdd.foldl
                (fun acc p => triAddPoint acc p none (scaleMatrix s.bounds))
                initPts
            (none, { s with tri? := some t })

/-- Heap entries pushed for a batch of sub-cells of a home simplex: one entry
per cell with loss `volume(cell) * (home loss / home volume)`, as in the push
loops of `_tell_pending` and `update_losses`. -/
def subcellEntriesFor (ops : TriangulationOps) (S : Splx) (L : ℚ)
    (cells : List Splx) : List Entry :=
  cells.map (fun c => (-(ops.volume c * (L / ops.volume S)), S, some c))

/-- One neighbour step of the `_tell_pending` loop: when the neighbour
simplex contains the point, insert the point into the sub-triangulation of
that simplex (creating it from the simplex vertices when absent) and push
entries for the newly created sub-cells; the loss lookup raises KeyError
(`none`) for an unledgered simplex. -/
def tellPendingStep (ops : TriangulationOps) (p : Pt) (acc : Option St)
    (simpl : Splx) : Option St :=
  match acc with
  | none => none
  | some s =>
      if ops.pointInSimplex p simpl then
        let subPts := match slookup s.subtris simpl with
          | none => simpl ++ [p]
          | some sp => sp ++ [p]
        let oldCells := match slookup s.subtris simpl with
          | none => ops.simplices simpl
          | some sp => ops.simplices sp
        let toadd := (ops.simplices subPts).filter
          (fun c => ¬ c ∈ oldCells)
        let s := { s with subtris := sset s.subtris simpl subPts }
        match slookup s.losses simpl with
        | none => none
        | some L =>
            some { s with
              heap := s.heap ++ subcellEntriesFor ops simpl L toadd }
      else some s

/-- Source method `_tell_pending(point, simplex=None)`: record the point as
pending; without a triangulation stop; otherwise resolve the home simplex
from the hint or by point location, and fold the neighbour step over every
accepted simplex sharing a vertex with it. -/
def tellPending (ops : TriangulationOps) (p : Pt) (hint : Option Splx)
    (s : St) : Option St :=
  let s := { s with pending := pinsert s.pending p }
  match triGet ops s with
  | (none, s) => some s
  | (some t, s) =>
      let simp? := match hint with
        | some h => some h
        | none => ops.locate t p
      match simp? with
      | none => some s
      | some simplex =>
          let neighbours := (ops.simplices t).filter
            (fun T => simplex.any (fun v => v ∈ T))
          neighbours.foldl (tellPendingStep ops p) (some s)

/-- One removed-simplex step of `update_losses`: pop the ledger entry and the
sub-triangulation, collecting the vertices of the latter as candidate
orphaned pending points. -/
def updDelStep (acc : St × List Pt) (S : Splx) : St × List Pt :=
  let s := { acc.1 with losses := sdel acc.1.losses S }
  match slookup s.subtris S with
  | none => (s, acc.2)
  | some subPts =>
      ({ s with subtris := sdel s.subtris S },
        subPts.foldl (fun o p => if p ∈ o then o else o ++ [p]) acc.2)

/-- One orphan re-homing step of `update_losses`: an orphaned pending point
falling inside the added simplex is inserted into its sub-triangulation and
recorded in the pending-to-home map. -/
def updOrphanStep (ops : TriangulationOps) (S : Splx) (s : St) (p : Pt) : St :=
  if ops.pointInSimplex p S then
    let subPts := match slookup s.subtris S with
      | none => S ++ [p]
      | some sp => sp ++ [p]
    { s with
      subtris := sset s.subtris S subPts
      pendingToSimplex := aset s.pendingToSimplex p S }
  else s

/-- One added-simplex step of `update_losses`: recompute the loss from the
pluggable loss function, re-home the orphans, and push either one
whole-simplex entry or one entry per sub-cell. -/
def updAddStep (ops : TriangulationOps) (lossFn : List Pt → List Val → ℚ)
    (orphans : List Pt) (s : St) (S : Splx) : St :=
  let values := S.map (fun v => (alookup s.data v).getD (Val.scalar 0))
  let L := lossFn S values
  let s := { s with losses := sset s.losses S L }
  let s := orphans.foldl (updOrphanStep ops S) s
  match slookup s.subtris S with
  | none => { s with heap := s.heap ++ [(-L, S, none)] }
  | some sp =>
      { s with
        heap := s.heap ++ subcellEntriesFor ops S L (ops.simplices sp) }

/-- Source method `update_losses(to_delete, to_add)`: drop ledger entries and
sub-triangulations of removed simplices, collecting their still-pending
vertices; for every added simplex compute its loss, re-home the orphaned
pending points that fall inside it, and push either a whole-simplex entry or
one entry per sub-cell. -/
def updateLosses (ops : TriangulationOps) (lossFn : List Pt → List Val → ℚ)
    (toDel toAdd : List Splx) (s : St) : St :=
  let step1 := toDel.foldl updDelStep (s, [])
  let s := step1.1
  let orphans := step1.2.filter (fun p => (alookup s.data p).isNone)
  toAdd.foldl (updAddStep ops lossFn orphans) s

/-- Storing part of `tell` with a real value: discard the point from the
pending set, register it in the spatial index, store it in the sample
dict. -/
def tellStore (p : Pt) (v : Val) (s : St) : St :=
  { s with
    pending := s.pending.filter (fun q => ¬ q = p)
    pointTree := s.pointTree ++ [(s.data.length, scaledPoint s.bounds p)]
    data := s.data ++ [(p, v)] }

/-- Triangulation-insertion part of `tell`: resolve the (possibly stale) home
simplex hint, insert the point, and update the losses with the removed and
added simplices. -/
def tellInsert (ops : TriangulationOps) (lossFn : List Pt → List Val → ℚ)
    (p : Pt) (t : List Pt) (s : St) : St :=
  let hint := match alookup s.pendingToSimplex p with
    | some simp =>
        if simp ∈ ops.simplices t then some simp else none
    | none => none
  let t' := triAddPoint t p hint (scaleMatrix s.bounds)
  let oldS := ops.simplices t
  let newS := ops.simplices t'
  let toDel := oldS.filter (fun S => ¬ S ∈ newS)
  let toAdd := newS.filter (fun S => ¬ S ∈ oldS)
  updateLosses ops lossFn toDel toAdd { s with tri? := some t' }

/-- Source method `tell(point, value)`: a no-op on an already sampled point;
`value = None` delegates to `_tell_pending`; otherwise store the point and,
when a triangulation exists, insert it and update the losses. -/
def LearnerND.tell (ops : TriangulationOps) (lossFn : List Pt → List Val → ℚ)
    (p : Pt) (v : Option Val) (s : St) : Option St :=
  if (alookup s.data p).isSome then some s
  else
    match v with
    | none => tellPending ops p none s
    | some v =>
        match triGet ops (tellStore p v s) with
        | (none, s) => some s
        | (some t, s) => some (tellInsert ops lossFn p t s)

/-- Solve the linear system `A x = b` over the rationals as
`np.linalg.solve` does for an invertible matrix: by Cramer, the unique
solution is `det(A)⁻¹ • cramer A b`. -/
def solveQ {n : ℕ} (A : Matrix (Fin n) (Fin n) ℚ) (b : Fin n → ℚ) :
    Fin n → ℚ :=
  (A.det)⁻¹ • (Matrix.cramer A b)

/-- Modelled from the spec: the circumsphere center returned by the external
geometry-kernel function `circumsphere(vertices)` (the source discards the
radius).  The center is the unique point equidistant from all vertices,
obtained from the linear system `2(pᵢ − p₀) · c = ‖pᵢ‖² − ‖p₀‖²`. -/
def circumcenterM {n : ℕ} (V : Matrix (Fin (n + 1)) (Fin n) ℚ) : Fin n → ℚ :=
  solveQ (Matrix.of fun i j => 2 * (V i.succ j - V 0 j))
    (fun i => (∑ j, V i.succ j ^ 2) - ∑ j, V 0 j ^ 2)

/-- Barycentric coordinates of a point with respect to the last n vertices of
a simplex, relative to vertex 0. -/
def barycentricM {n : ℕ} (V : Matrix (Fin (n + 1)) (Fin n) ℚ)
    (p : Fin n → ℚ) : Fin n → ℚ :=
  solveQ (Matrix.of fun j i => V i.succ j - V 0 j) (fun j => p j - V 0 j)

/-- Modelled from the spec: the external geometry-kernel predicate
`point_in_simplex(point, simplex)`: all barycentric coordinates are
non-negative and they sum to at most one. -/
def pointInSimplexB {n : ℕ} (p : Fin n → ℚ)
    (V : Matrix (Fin (n + 1)) (Fin n) ℚ) : Bool :=
  decide (∀ i, 0 ≤ barycentricM V p i) &&
    decide ((∑ i, barycentricM V p i) ≤ 1)

/-- The centroid `np.average(simplex, axis=0)` of the vertex rows. -/
def centroidM {n : ℕ} (V : Matrix (Fin (n + 1)) (Fin n) ℚ) : Fin n → ℚ :=
  fun j => (∑ i, V i j) / ((n : ℚ) + 1)

/-- Squared Euclidean distance between two vertex rows.  The source compares
Euclidean distances from `scipy.spatial.distance.pdist`; comparing their
squares selects the same maximal pair because squaring is strictly monotone
on non-negative reals. -/
def sqDistRows {n : ℕ} (V : Matrix (Fin (n + 1)) (Fin n) ℚ)
    (i j : Fin (n + 1)) : ℚ :=
  ∑ k, (V i k - V j k) ^ 2

/-- Vertex index pairs `i < j` in lexicographic order; this is the scan order
in which `np.argmax` over the square-form distance matrix meets each distinct
pair first. -/
def edgePairs (n : ℕ) : List (Fin (n + 1) × Fin (n + 1)) :=
  (List.finRange (n + 1)).flatMap
    (fun i => ((List.finRange (n + 1)).filter (fun j => i < j)).map
      (fun j => (i, j)))

/-- The pair of vertices at maximal pairwise distance, the first such pair in
scan order (`np.unravel_index(np.argmax(distance_matrix), ...)`). -/
def longestEdgePair {n : ℕ} (V : Matrix (Fin (n + 1)) (Fin n) ℚ) :
    Fin (n + 1) × Fin (n + 1) :=
  (edgePairs n).foldl
    (fun best pr =>
      if sqDistRows V best.1 best.2 < sqDistRows V pr.1 pr.2 then pr else best)
    ((edgePairs n).headD (0, 0))

/-- Candidate point of `choose_point_in_simplex` before the transform is
undone: the centroid when the circumsphere center lies inside the simplex,
otherwise the midpoint of the longest edge. -/
def choosePointPlain {n : ℕ} (V : Matrix (Fin (n + 1)) (Fin n) ℚ) :
    Fin n → ℚ :=
  if pointInSimplexB (circumcenterM V) V then centroidM V
  else
    let pr := longestEdgePair V
    fun k => (V pr.1 k + V pr.2 k) / 2

/-- Source function `choose_point_in_simplex` on a transformed simplex: the
vertex rows are right-multiplied by the transform (`np.dot(simplex,
transform)`), the candidate is picked in transformed coordinates, and the
result is `np.linalg.solve(transform, point)`. -/
def choosePointCore {n : ℕ} (V : Matrix (Fin (n + 1)) (Fin n) ℚ)
    (T : Matrix (Fin n) (Fin n) ℚ) : Fin n → ℚ :=
  solveQ T (choosePointPlain (V * T))

/-- View a list of rational rows as a matrix, padding missing entries with
zero. -/
def listToMatrix (m n : ℕ) (rows : List (List ℚ)) :
    Matrix (Fin m) (Fin n) ℚ :=
  Matrix.of fun i j => (rows.getD i []).getD j 0

/-- Source function `choose_point_in_simplex(simplex, transform)` on the
list-of-rows representation used by the learner state. -/
def choosePointInSimplex (simplex : List Pt) (transform : Option (List (List ℚ))) :
    Pt :=
  let d := (simplex.headD []).length
  match transform with
  | none => List.ofFn (choosePointPlain (listToMatrix (d + 1) d simplex))
  | some t =>
      List.ofFn
        (choosePointCore (listToMatrix (d + 1) d simplex) (listToMatrix d d t))

/-- Strict lexicographic order on rational lists (Python tuple comparison of
points). -/
def ptLt : List ℚ → List ℚ → Bool
  | [], [] => false
  | [], _ :: _ => true
  | _ :: _, [] => false
  | a :: as, b :: bs => if a < b then true else if b < a then false else ptLt as bs

/-- Strict lexicographic order on simplices (tuples of points). -/
def splxLt : List Pt → List Pt → Bool
  | [], [] => false
  | [], _ :: _ => true
  | _ :: _, [] => false
  | a :: as, b :: bs =>
      if ptLt a b then true else if ptLt b a then false else splxLt as bs

/-- Strict order on optional sub-simplices.  Python cannot compare `None`
with a tuple, but entries with equal loss and equal home simplex never mix a
`None` sub-simplex with a real one, so the choice `none < some` is
unobservable. -/
def osplxLt : Option Splx → Option Splx → Bool
  | none, none => false
  | none, some _ => true
  | some _, none => false
  | some a, some b => splxLt a b

/-- Strict lexicographic order on heap entries, mirroring Python tuple
comparison of `(-loss, simplex, subsimplex)`. -/
def entryLt (a b : Entry) : Bool :=
  if a.1 < b.1 then true
  else if b.1 < a.1 then false
  else if splxLt a.2.1 b.2.1 then true
  else if splxLt b.2.1 a.2.1 then false
  else osplxLt a.2.2 b.2.2

/-- Pop a minimal entry from the heap list (`heapq.heappop`), keeping the
earliest minimal entry. -/
def heapPopMin : List Entry → Option (Entry × List Entry)
  | [] => none
  | x :: xs =>
      match heapPopMin xs with
      | none => some (x, [])
      | some (m, rest) => if entryLt m x then some (m, x :: rest) else some (x, xs)

/-- The filter `bounds_to_do` of `_ask_bound_point`: corner points that are
neither sampled nor pending. -/
def boundsToDo (s : St) : List Pt :=
  s.boundsPoints.filter
    (fun p => (alookup s.data p).isNone && ¬ p ∈ s.pending)

/-- The property `_bounds_available`. -/
def boundsAvailable (s : St) : Bool :=
  s.boundsPoints.any (fun p => ¬ p ∈ s.pending && (alookup s.data p).isNone)

/-- Source method `_ask_bound_point`: take the first untouched corner, mark
it pending, and return it with infinite priority.  An empty `bounds_to_do`
raises IndexError on the subscript. -/
def askBoundPoint (ops : TriangulationOps) (s : St) :
    Option ((Pt × WithTop ℚ) × St) :=
  match boundsToDo s with
  | [] => none
  | p :: _ => (tellPending ops p none s).map (fun s2 => ((p, ⊤), s2))

/-- Source method `_ask_point_without_known_simplices`: draw one coordinate
per dimension from the private random generator, map it affinely into the
bounds, mark the point pending, and return it with infinite priority. -/
def askRandom (ops : TriangulationOps) (s : St) :
    Option ((Pt × WithTop ℚ) × St) :=
  let r := (List.range s.ndim).map (fun i => s.rngStream (s.rngIndex + i))
  let a := s.bounds.map (fun b => b.2 - b.1)
  let bl := s.bounds.map (fun b => b.1)
  let p := List.zipWith (· + ·) (List.zipWith (· * ·) r a) bl
  let s := { s with rngIndex := s.rngIndex + s.ndim }
  (tellPending ops p none s).map (fun s2 => ((p, ⊤), s2))

/-- Source method `_pop_highest_existing_simplex`: pop heap entries until one
passes the liveness check — a whole-simplex entry whose simplex is present
and not subdivided, or a sub-cell entry whose home simplex is present and
whose cell is in the current sub-triangulation.  The fuel argument bounds the
number of pops; an exhausted heap raises IndexError (`none`). -/
def popLiveAux (ops : TriangulationOps) (t : List Pt) :
    ℕ → St → Option ((ℚ × Splx × Option Splx) × St)
  | 0, _ => none
  | fuel + 1, s =>
      match heapPopMin s.heap with
      | none => none
      | some ((q, S, sub), rest) =>
          let s := { s with heap := rest }
          let live : Bool :=
            match sub with
            | none => S ∈ ops.simplices t && (slookup s.subtris S).isNone
            | some c =>
                (slookup s.subtris S).isSome && S ∈ ops.simplices t &&
                  (match slookup s.subtris S with
                    | some sp => c ∈ ops.simplices sp
                    | none => false)
          if live then some ((qabs q, S, sub), s) else popLiveAux ops t fuel s

/-- Source method `_ask_best_point`: pop the best live region, choose a new
point inside it with the scale-matrix transform, remember its home simplex,
mark it pending against that simplex, and return it with the popped loss. -/
def askBestPoint (ops : TriangulationOps) (s : St) :
    Option ((Pt × WithTop ℚ) × St) :=
  match triGet ops s with
  | (none, _) => none
  | (some t, s) =>
      match popLiveAux ops t s.heap.length s with
      | none => none
      | some ((loss, S, sub), s) =>
          let points := match sub with
            | none => S
            | some c => c
          let pNew := choosePointInSimplex points (some (scaleMatrix s.bounds))
          let s := { s with pendingToSimplex := aset s.pendingToSimplex pNew S }
          (tellPending ops pNew (some S) s).map
            (fun s2 => ((pNew, (loss : WithTop ℚ)), s2))

/-- Source method `_ask`: corners first, then the random interior point while
no triangulation exists, then the best live region. -/
def askOne (ops : TriangulationOps) (s : St) :
    Option ((Pt × WithTop ℚ) × St) :=
  if boundsAvailable s then askBoundPoint ops s
  else
    match triGet ops s with
    | (none, s) => askRandom ops s
    | (some _, s) => askBestPoint ops s

/-- Sequential single-point selections of `ask(n)`. -/
def askSeq (ops : TriangulationOps) :
    ℕ → St → Option ((List Pt × List (WithTop ℚ)) × St)
  | 0, s => some (([], []), s)
  | n + 1, s =>
      match askOne ops s with
      | none => none
      | some ((p, l), s) =>
          (askSeq ops n s).map
            (fun r => ((p :: r.1.1, l :: r.1.2), r.2))

/-- Source method `ask(n)`: n sequential selections; unpacking the empty zip
for `n = 0` raises in Python. -/
def LearnerND.ask (ops : TriangulationOps) (n : ℕ) (s : St) :
    Option ((List Pt × List (WithTop ℚ)) × St) :=
  if n = 0 then none else askSeq ops n s

/-- Source method `losses()`: the empty dict while no triangulation exists
(the access may build one and then still reports none), otherwise the loss
ledger. -/
def lossesView (ops : TriangulationOps) (s : St) : List (Splx × ℚ) :=
  match triGet ops s with
  | (none, _) => []
  | (some _, s) => s.losses

/-- Source method `loss()`: the maximum ledger loss, infinity when the ledger
view is empty. -/
def lossVal (ops : TriangulationOps) (s : St) : WithTop ℚ :=
  match (lossesView ops s).map Prod.snd with
  | [] => ⊤
  | q :: qs => ((qs.foldl max q : ℚ) : WithTop ℚ)

/-- The `vdim` property: the length of the first value told, 1 for scalars,
1 while no data exists. -/
def vdim (s : St) : ℕ :=
  match s.data.head? with
  | some (_, Val.vec l) => l.length
  | some (_, Val.scalar _) => 1
  | none => 1

/-- A call of the public engine interface, for whole-run statements. -/
inductive Call where
  | tellCall (p : Pt) (v : Option Val) : Call
  | askCall (n : ℕ) : Call

/-- Run a sequence of interface calls, collecting the `ask` outputs (`none`
marks a call that raised). -/
def runCalls (ops : TriangulationOps) (lossFn : List Pt → List Val → ℚ) :
    List Call → St → St × List (Option (List Pt × List (WithTop ℚ)))
  | [], s => (s, [])
  | c :: cs, s =>
      let step : St × Option (List Pt × List (WithTop ℚ)) :=
        match c with
        | .tellCall p v =>
            match LearnerND.tell ops lossFn p v s with
            | none => (s, none)
            | some s2 => (s2, none)
        | .askCall n =>
            match LearnerND.ask ops n s with
            | none => (s, none)
            | some (out, s2) => (s2, some out)
      let rest := runCalls ops lossFn cs step.1
      (rest.1, step.2 :: rest.2)

example : boundsProduct [(0, 4)] = [[0], [4]] := by with_unfolding_all decide

example : tri1DOps.simplices [[0], [1], [2]] = [[[0], [1]], [[1], [2]]] := by
  with_unfolding_all decide

example : volumeL [[1], [3]] = 2 := by with_unfolding_all decide

/-- Fallback learner used as a default for extracting states from `Option`. -/
def dflt14 : St := initSt [(0, 4)] mtStream1

/-- Concrete 1-D scenario of the spec: bounds (0,4), then
`tell((0,),0)`, `tell((1,),0)`, `tell((2,),0)` with the uniform volume
loss. -/
def scenarioTellState : St :=
  (((LearnerND.tell tri1DOps uniform_loss [0] (some (Val.scalar 0))
        (initSt [(0, 4)] mtStream1)).bind
      (LearnerND.tell tri1DOps uniform_loss [1] (some (Val.scalar 0)))).bind
    (LearnerND.tell tri1DOps uniform_loss [2] (some (Val.scalar 0)))).getD dflt14

/-- A reachable state with samples outside the bounding box: bounds (0,4) but
points 5 and -1 told, so the triangulated region covers the untouched corner
0. -/
def outOfBoxState : St :=
  ((LearnerND.tell tri1DOps uniform_loss [5] (some (Val.scalar 0))
      (initSt [(0, 4)] mtStream1)).bind
    (LearnerND.tell tri1DOps uniform_loss [-1] (some (Val.scalar 0)))).getD dflt14

/-- A reachable state over bounds (0,1) in which both corners and the exact
point the private generator will produce next are already pending. -/
def randomPendState : St :=
  (((LearnerND.tell tri1DOps uniform_loss [0] none (initSt [(0, 1)] mtStream1)).bind
      (LearnerND.tell tri1DOps uniform_loss [1] none)).bind
    (LearnerND.tell tri1DOps uniform_loss [1 / 3] none)).getD dflt14

/-- Pre-batch state of the out-of-order scenario: bounds (0,3), the single
interior sample 1 told. -/
def c5PreState : St :=
  (LearnerND.tell tri1DOps uniform_loss [1] (some (Val.scalar 0))
      (initSt [(0, 3)] mtStream1)).getD dflt14

/-- State after `ask(2)` on `c5PreState`: both corners pending. -/
def c5AskedState : St :=
  ((LearnerND.ask tri1DOps 2 c5PreState).map Prod.snd).getD dflt14

/-- Resolving the asked batch in request order: 0 then 3. -/
def c5OrderA : St :=
  ((LearnerND.tell tri1DOps uniform_loss [0] (some (Val.scalar 0)) c5AskedState).bind
    (LearnerND.tell tri1DOps uniform_loss [3] (some (Val.scalar 0)))).getD dflt14

/-- Resolving the asked batch in reverse order: 3 then 0. -/
def c5OrderB : St :=
  ((LearnerND.tell tri1DOps uniform_loss [3] (some (Val.scalar 0)) c5AskedState).bind
    (LearnerND.tell tri1DOps uniform_loss [0] (some (Val.scalar 0)))).getD dflt14

/-- State after telling a first vector value of dimensionality 2. -/
def mismatchBaseState : St :=
  (LearnerND.tell tri1DOps uniform_loss [0] (some (Val.vec [1, 2]))
      (initSt [(0, 1)] mtStream1)).getD dflt14

/-- State after one real tell over bounds (0,1), for the idempotence witness. -/
def onceToldState : St :=
  (LearnerND.tell tri1DOps uniform_loss [0] (some (Val.scalar 0))
      (initSt [(0, 1)] mtStream1)).getD dflt14

/-- State after the first ask over bounds (0,2), used as a witness state. -/
def c3wAfter : St :=
  ((askOne tri1DOps (initSt [(0, 2)] mtStream1)).map Prod.snd).getD dflt14

/-- Counterexample simplex for the transform claim: the triangle with rows
(0,0), (4,0), (2,3). -/
def cexV : Matrix (Fin 3) (Fin 2) ℚ := Matrix.of ![![0, 0], ![4, 0], ![2, 3]]

/-- Counterexample transform: invertible but not symmetric. -/
def cexT : Matrix (Fin 2) (Fin 2) ℚ := Matrix.of ![![1, 1], ![0, 1]]

theorem pinsert_mem (l : List Pt) (p : Pt) : p ∈ pinsert l p := by
  unfold pinsert
  split
  · assumption
  · exact List.mem_append_right _ (List.mem_singleton.mpr rfl)

theorem triGet_pending (ops : TriangulationOps) (s : St) :
    (triGet ops s).2.pending = s.pending := by
  unfold triGet
  rcases s with ⟨nd, b, d, pe, bp, t?, lo, p2s, su, he, pt, rs, ri⟩
  cases t? with
  | some t => rfl
  | none =>
      dsimp only
      split
      · rfl
      · split
        · rfl
        · rfl

theorem triGet_data (ops : TriangulationOps) (s : St) :
    (triGet ops s).2.data = s.data := by
  unfold triGet
  rcases s with ⟨nd, b, d, pe, bp, t?, lo, p2s, su, he, pt, rs, ri⟩
  cases t? with
  | some t => rfl
  | none =>
      dsimp only
      split
      · rfl
      · split
        · rfl
        · rfl

theorem tellPendingStep_some (ops : TriangulationOps) (p : Pt)
    (acc : Option St) (simpl : Splx) (s' : St)
    (h : tellPendingStep ops p acc simpl = some s') :
    ∃ s, acc = some s ∧ s'.pending = s.pending ∧ s'.data = s.data := by
  cases acc with
  | none => exact absurd h (by simp [tellPendingStep])
  | some s =>
      refine ⟨s, rfl, ?_⟩
      unfold tellPendingStep at h
      dsimp only at h
      split at h
      · split at h
        · exact absurd h (by simp)
        · cases h; exact ⟨rfl, rfl⟩
      · cases h; exact ⟨rfl, rfl⟩

theorem tellPendingFold_none (ops : TriangulationOps) (p : Pt) :
    ∀ (l : List Splx), l.foldl (tellPendingStep ops p) none = none := by
  intro l
  induction l with
  | nil => rfl
  | cons x xs ih => simpa [List.foldl_cons, tellPendingStep] using ih

theorem tellPendingFold_some (ops : TriangulationOps) (p : Pt) :
    ∀ (l : List Splx) (s s' : St),
      l.foldl (tellPendingStep ops p) (some s) = some s' →
      s'.pending = s.pending ∧ s'.data = s.data := by
  intro l
  induction l with
  | nil =>
      intro s s' h
      cases h
      exact ⟨rfl, rfl⟩
  | cons x xs ih =>
      intro s s' h
      rw [List.foldl_cons] at h
      cases h0 : tellPendingStep ops p (some s) x with
      | none => rw [h0, tellPendingFold_none] at h; cases h
      | some s1 =>
          rw [h0] at h
          obtain ⟨hp, hd⟩ := ih s1 s' h
          obtain ⟨s0, hs0, hp1, hd1⟩ := tellPendingStep_some ops p _ x s1 h0
          cases hs0
          exact ⟨hp.trans hp1, hd.trans hd1⟩

theorem tellPending_some (ops : TriangulationOps) (p : Pt)
    (hint : Option Splx) (s s' : St)
    (h : tellPending ops p hint s = some s') :
    s'.pending = pinsert s.pending p ∧ s'.data = s.data := by
  unfold tellPending at h
  dsimp only at h
  rcases h1 : triGet ops { s with pending := pinsert s.pending p } with ⟨t?, s2⟩
  rw [h1] at h
  have hpe : s2.pending = pinsert s.pending p := by
    have := triGet_pending ops { s with pending := pinsert s.pending p }
    rw [h1] at this
    exact this
  have hda : s2.data = s.data := by
    have := triGet_data ops { s with pending := pinsert s.pending p }
    rw [h1] at this
    exact this
  cases t? with
  | none => cases h; exact ⟨hpe, hda⟩
  | some t =>
      dsimp only at h
      rcases hint with _ | hsimp
      · dsimp only at h
        cases h2 : ops.locate t p with
        | none => rw [h2] at h; cases h; exact ⟨hpe, hda⟩
        | some simplex =>
            rw [h2] at h
            obtain ⟨hp3, hd3⟩ := tellPendingFold_some ops p _ s2 s' h
            exact ⟨hp3.trans hpe, hd3.trans hda⟩
      · dsimp only at h
        obtain ⟨hp3, hd3⟩ := tellPendingFold_some ops p _ s2 s' h
        exact ⟨hp3.trans hpe, hd3.trans hda⟩

theorem tellPending_mem_pending (ops : TriangulationOps) (p : Pt)
    (hint : Option Splx) (s s' : St)
    (h : tellPending ops p hint s = some s') : p ∈ s'.pending := by
  rw [(tellPending_some ops p hint s s' h).1]
  exact pinsert_mem _ _

theorem updOrphanStep_data (ops : TriangulationOps) (S : Splx) (s : St)
    (p : Pt) : (updOrphanStep ops S s p).data = s.data := by
  unfold updOrphanStep
  split
  · rfl
  · rfl

theorem foldl_orphan_data (ops : TriangulationOps) (S : Splx) :
    ∀ (l : List Pt) (s : St),
      (l.foldl (updOrphanStep ops S) s).data = s.data := by
  intro l
  induction l with
  | nil => intro s; rfl
  | cons p ps ih =>
      intro s
      rw [List.foldl_cons, ih, updOrphanStep_data]

theorem updAddStep_data (ops : TriangulationOps)
    (lossFn : List Pt → List Val → ℚ) (orphans : List Pt) (s : St) (S : Splx) :
    (updAddStep ops lossFn orphans s S).data = s.data := by
  unfold updAddStep
  dsimp only
  split
  · exact foldl_orphan_data ops S _ _
  · exact foldl_orphan_data ops S _ _

theorem foldl_add_data (ops : TriangulationOps)
    (lossFn : List Pt → List Val → ℚ) (orphans : List Pt) :
    ∀ (l : List Splx) (s : St),
      (l.foldl (updAddStep ops lossFn orphans) s).data = s.data := by
  intro l
  induction l with
  | nil => intro s; rfl
  | cons S Ss ih =>
      intro s
      rw [List.foldl_cons, ih, updAddStep_data]

theorem updDelStep_data (acc : St × List Pt) (S : Splx) :
    (updDelStep acc S).1.data = acc.1.data := by
  unfold updDelStep
  dsimp only
  split
  · rfl
  · rfl

theorem foldl_del_data :
    ∀ (l : List Splx) (acc : St × List Pt),
      (l.foldl updDelStep acc).1.data = acc.1.data := by
  intro l
  induction l with
  | nil => intro acc; rfl
  | cons S Ss ih =>
      intro acc
      rw [List.foldl_cons, ih, updDelStep_data]

theorem updateLosses_data (ops : TriangulationOps)
    (lossFn : List Pt → List Val → ℚ) (toDel toAdd : List Splx) (s : St) :
    (updateLosses ops lossFn toDel toAdd s).data = s.data := by
  unfold updateLosses
  rw [foldl_add_data, foldl_del_data]

theorem alookup_append_self {β : Type} (l : List (Pt × β)) (p : Pt) (v : β)
    (h : (alookup l p).isNone = true) :
    alookup (l ++ [(p, v)]) p = some v := by
  induction l with
  | nil => simp [alookup]
  | cons x xs ih =>
      rcases x with ⟨a, b⟩
      rw [List.cons_append]
      simp only [alookup] at h ⊢
      by_cases hap : a = p
      · rw [if_pos hap] at h
        cases h
      · rw [if_neg hap] at h ⊢
        exact ih h

theorem tellInsert_data (ops : TriangulationOps)
    (lossFn : List Pt → List Val → ℚ) (p : Pt) (t : List Pt) (s : St) :
    (tellInsert ops lossFn p t s).data = s.data := by
  unfold tellInsert
  dsimp only
  rw [updateLosses_data]

theorem optMapPair {q p : Pt} {w pr : WithTop ℚ} {s' : St} {o : Option St}
    (h : (o.map (fun s2 => ((q, w), s2))) = some ((p, pr), s')) :
    q = p ∧ w = pr ∧ o = some s' := by
  cases o with
  | none => cases h
  | some s0 =>
      simp only [Option.map, Option.some.injEq, Prod.mk.injEq] at h
      obtain ⟨⟨h1, h2⟩, h3⟩ := h
      exact ⟨h1, h2, by rw [h3]⟩

theorem triGet_some_eq (ops : TriangulationOps) (s : St) (t : List Pt)
    (h : triGet ops s = (some t, s)) : s.tri? = some t := by
  unfold triGet at h
  cases ht : s.tri? with
  | some u =>
      rw [ht] at h
      dsimp only at h
      exact congrArg Prod.fst h
  | none =>
      rw [ht] at h
      dsimp only at h
      split at h
      · exact absurd (congrArg Prod.fst h) (by simp)
      · split at h
        · exact absurd (congrArg Prod.fst h) (by simp)
        · exact absurd (congrArg Prod.fst h) (by simp)

theorem triGet_someE (ops : TriangulationOps) (s s3 : St) (t : List Pt)
    (h : triGet ops s = (some t, s3)) : s3 = s ∧ s.tri? = some t := by
  unfold triGet at h
  cases ht : s.tri? with
  | some u =>
      rw [ht] at h
      dsimp only at h
      have h1 : some u = some t := congrArg Prod.fst h
      injection h1 with h2
      exact ⟨(congrArg Prod.snd h).symm, by rw [h2]⟩
  | none =>
      rw [ht] at h
      dsimp only at h
      split at h
      · exact absurd (congrArg Prod.fst h) (by simp)
      · split at h
        · exact absurd (congrArg Prod.fst h) (by simp)
        · exact absurd (congrArg Prod.fst h) (by simp)

/-- C3 amended: in the corner phase `ask` never returns a sampled or pending
point, and in every branch the returned point has been marked pending by the
time the selection returns (so the next selection of a batch observes it);
the pre-triangulation random-interior branch, however, performs no check
against existing points. -/
theorem C3_amended :
    (∀ (ops : TriangulationOps) (s : St) (p : Pt) (pr : WithTop ℚ) (s' : St),
        boundsAvailable s = true → askOne ops s = some ((p, pr), s') →
        (alookup s.data p).isNone = true ∧ ¬ p ∈ s.pending) ∧
      (∀ (ops : TriangulationOps) (s : St) (p : Pt) (pr : WithTop ℚ) (s' : St),
        askOne ops s = some ((p, pr), s') → p ∈ s'.pending) := by
  constructor
  · intro ops s p pr s' hb h
    unfold askOne at h
    rw [if_pos hb] at h
    unfold askBoundPoint at h
    cases h3 : boundsToDo s with
    | nil => rw [h3] at h; cases h
    | cons q rest =>
        rw [h3] at h
        obtain ⟨hqp, _, _⟩ := optMapPair h
        have hq : q ∈ boundsToDo s := by rw [h3]; exact List.mem_cons_self _ _
        unfold boundsToDo at hq
        have hpred := (List.mem_filter.mp hq).2
        rw [Bool.and_eq_true] at hpred
        subst hqp
        exact ⟨hpred.1, of_decide_eq_true hpred.2⟩
  · intro ops s p pr s' h
    unfold askOne at h
    by_cases hb : boundsAvailable s = true
    · rw [if_pos hb] at h
      unfold askBoundPoint at h
      cases h3 : boundsToDo s with
      | nil => rw [h3] at h; cases h
      | cons q rest =>
          rw [h3] at h
          obtain ⟨hqp, _, ho⟩ := optMapPair h
          subst hqp
          exact tellPending_mem_pending ops q none s s' ho
    · rw [if_neg hb] at h
      rcases h1 : triGet ops s with ⟨t?, s3⟩
      rw [h1] at h
      cases t? with
      | none =>
          unfold askRandom at h
          dsimp only at h
          obtain ⟨hqp, _, ho⟩ := optMapPair h
          subst hqp
          exact tellPending_mem_pending ops _ none _ s' ho
      | some t =>
          unfold askBestPoint at h
          dsimp only at h
          obtain ⟨hs3, htri⟩ := triGet_someE ops s s3 t h1
          subst hs3
          rw [h1] at h
          dsimp only at h
          split at h
          · cases h
          · obtain ⟨hqp, _, ho⟩ := optMapPair h
            subst hqp
            exact tellPending_mem_pending ops _ _ _ s' ho

theorem boundsProduct_length (bs : List (ℚ × ℚ)) :
    (boundsProduct bs).length = 2 ^ bs.length := by
  induction bs with
  | nil => rfl
  | cons b rest ih =>
      rcases b with ⟨a, c⟩
      simp only [boundsProduct, List.length_append, List.length_map, ih,
        List.length_cons]
      ring

theorem boundsProduct_nodup (bs : List (ℚ × ℚ))
    (h : ∀ b ∈ bs, b.1 ≠ b.2) : (boundsProduct bs).Nodup := by
  induction bs with
  | nil => simp [boundsProduct]
  | cons b rest ih =>
      rcases b with ⟨a, c⟩
      have hac : a ≠ c := h (a, c) (List.mem_cons_self _ _)
      have hrest := ih (fun b hb => h b (List.mem_cons_of_mem _ hb))
      simp only [boundsProduct]
      refine List.Nodup.append ?_ ?_ ?_
      · exact hrest.map (fun p q hpq => by injection hpq)
      · exact hrest.map (fun p q hpq => by injection hpq)
      · intro x hx1 hx2
        obtain ⟨p, _, hp⟩ := List.mem_map.mp hx1
        obtain ⟨q, _, hq⟩ := List.mem_map.mp hx2
        rw [← hp] at hq
        injection hq with h1 _
        exact hac h1.symm

theorem filter_decide_not_mem_take (l : List Pt) (hl : l.Nodup) :
    ∀ j, l.filter (fun p => decide (¬ p ∈ l.take j)) = l.drop j := by
  induction l with
  | nil => intro j; simp
  | cons x xs ih =>
      intro j
      cases j with
      | zero =>
          have hp : (fun p : Pt => decide (¬ p ∈ List.take 0 (x :: xs))) =
              fun _ => true := by
            funext p
            simp
          rw [hp]
          simp
      | succ n =>
          rw [List.take_succ_cons, List.drop_succ_cons, List.filter_cons]
          have hx : (decide (¬ x ∈ x :: List.take n xs)) = false := by
            simp
          rw [hx]
          rw [if_neg (by simp)]
          have hcongr : ∀ p ∈ xs,
              (decide (¬ p ∈ x :: List.take n xs)) =
                (decide (¬ p ∈ xs.take n)) := by
            intro p hp
            have hpx : p ≠ x := by
              intro hcontra
              exact (List.nodup_cons.mp hl).1 (hcontra ▸ hp)
            simp [List.mem_cons, hpx]
          rw [List.filter_congr hcongr]
          exact ih (List.nodup_cons.mp hl).2 n

theorem get_not_mem_take (l : List Pt) (hl : l.Nodup) (j : ℕ)
    (hj : j < l.length) : ¬ l.get ⟨j, hj⟩ ∈ l.take j := by
  intro hmem
  rw [List.mem_iff_getElem] at hmem
  obtain ⟨k, hk, hkeq⟩ := hmem
  have hkj : k < j := lt_of_lt_of_le hk (by simp [List.length_take])
  have hkl : k < l.length := lt_of_lt_of_le hk
    (by rw [List.length_take]; exact min_le_right _ _)
  have h1 : (l.take j)[k]? = l[k]? := List.getElem?_take_of_lt hkj
  rw [List.getElem?_eq_getElem hk, List.getElem?_eq_getElem hkl] at h1
  injection h1 with h2
  rw [h2, List.get_eq_getElem] at hkeq
  exact absurd (hl.getElem_inj_iff.mp hkeq) (Nat.ne_of_lt hkj)

theorem tellPending_phase0 (ops : TriangulationOps) (c : Pt) (s : St)
    (hc : ¬ c ∈ s.pending) (ht : s.tri? = none) (hd : s.data = []) :
    tellPending ops c none s = some { s with pending := s.pending ++ [c] } := by
  unfold tellPending
  dsimp only
  have hp : pinsert s.pending c = s.pending ++ [c] := by
    unfold pinsert
    rw [if_neg hc]
  rw [hp]
  unfold triGet
  dsimp only
  rw [ht]
  dsimp only
  rw [hd]
  simp

theorem askOne_corner (ops : TriangulationOps) (s : St) (bp : List Pt)
    (j : ℕ) (hbp : s.boundsPoints = bp) (hd : s.data = [])
    (ht : s.tri? = none) (hpend : s.pending = bp.take j) (hnd : bp.Nodup)
    (hj : j < bp.length) :
    askOne ops s =
      some ((bp.get ⟨j, hj⟩, ⊤), { s with pending := bp.take (j + 1) }) := by
  have hnm : ¬ bp.get ⟨j, hj⟩ ∈ bp.take j := get_not_mem_take bp hnd j hj
  have hnm2 : bp[j] ∉ bp.take j := by
    have h0 := hnm
    rwa [List.get_eq_getElem] at h0
  have hav : boundsAvailable s = true := by
    unfold boundsAvailable
    rw [List.any_eq_true]
    refine ⟨bp.get ⟨j, hj⟩, by rw [hbp]; exact List.get_mem _ _ _, ?_⟩
    rw [hpend, hd]
    simp [alookup, hnm2]
  unfold askOne
  rw [if_pos hav]
  unfold askBoundPoint
  have htodo : boundsToDo s = bp.drop j := by
    unfold boundsToDo
    rw [hbp, hpend, hd]
    have hcongr : ∀ p ∈ bp,
        ((alookup ([] : List (Pt × Val)) p).isNone &&
            decide (¬ p ∈ bp.take j)) = decide (¬ p ∈ bp.take j) :=
      fun p _ => by simp [alookup]
    rw [List.filter_congr hcongr]
    exact filter_decide_not_mem_take bp hnd j
  rw [htodo, List.drop_eq_getElem_cons hj]
  dsimp only
  rw [tellPending_phase0 ops _ s (by rw [hpend]; exact hnm2) ht hd]
  dsimp only [Option.map]
  rw [List.get_eq_getElem]
  rw [show s.pending ++ [bp[j]] = bp.take (j + 1) from by
    rw [hpend]; exact List.take_concat_get' bp j hj]

theorem askSeq_corner (ops : TriangulationOps) (s : St) (bp : List Pt)
    (hbp : s.boundsPoints = bp) (hd : s.data = []) (ht : s.tri? = none)
    (hnd : bp.Nodup) :
    ∀ (k j : ℕ), j + k ≤ bp.length →
      askSeq ops k { s with pending := bp.take j } =
        some (((bp.drop j).take k, List.replicate k ⊤),
          { s with pending := bp.take (j + k) }) := by
  intro k
  induction k with
  | zero =>
      intro j hjk
      simp [askSeq]
  | succ k ih =>
      intro j hjk
      have hj : j < bp.length := by omega
      unfold askSeq
      rw [askOne_corner ops { s with pending := bp.take j } bp j hbp hd ht
        rfl hnd hj]
      dsimp only
      have hrec := ih (j + 1) (by omega)
      rw [hrec]
      dsimp only [Option.map]
      rw [List.drop_eq_getElem_cons hj]
      rw [List.take_succ_cons, List.replicate_succ]
      rw [show j + 1 + k = j + (k + 1) from by omega]
      rw [List.get_eq_getElem]

/-- C2: `tell` is idempotent on sampled points — for a point already present
in the sample data, a second `tell(p, v)` with any value returns the state
unchanged (data, pending set, triangulation, loss ledger, priority queue,
pending-to-home map and spatial index all identical). -/
theorem C2_tell_idempotent (ops : TriangulationOps)
    (lossFn : List Pt → List Val → ℚ) (s : St) (p : Pt) (v : Option Val)
    (h : (alookup s.data p).isSome = true) :
    LearnerND.tell ops lossFn p v s = some s := by
  unfold LearnerND.tell
  rw [if_pos h]

/-- C2 witness: after telling the point 0 with value 0, a second tell of 0
with a different value is the identity on the learner state. -/
theorem C2_tell_idempotent_witness :
    LearnerND.tell tri1DOps uniform_loss [0] (some (Val.scalar 1)) onceToldState =
      some onceToldState :=
  C2_tell_idempotent tri1DOps uniform_loss onceToldState [0]
    (some (Val.scalar 1)) (by with_unfolding_all decide)

/-- C10: the learner is fully deterministic and independent of ambient
randomness — construction seeds a private generator with the constant 1, so
two learners built over the same bounds under different ambient randomness
produce identical states and identical ask outputs on every call
sequence. -/
theorem C10_determinism (ops : TriangulationOps)
    (lossFn : List Pt → List Val → ℚ) (bounds : List (ℚ × ℚ))
    (g1 g2 : ℕ → ℚ) (calls : List Call) :
    runCalls ops lossFn calls (initSt bounds g1) =
      runCalls ops lossFn calls (initSt bounds g2) := rfl

/-- C4: loss is conserved under subdivision — every queue entry created for a
sub-cell of a subdivided home simplex carries loss
`volume(cell) × loss(S) / volume(S)`, and when the sub-triangulation covers
the home simplex (the coverage contract of the external triangulation) these
sub-cell losses sum exactly to the ledger loss of the home simplex. -/
theorem C4_loss_conservation (ops : TriangulationOps) (S : Splx) (L : ℚ)
    (subPts : List Pt)
    (hcov : ((ops.simplices subPts).map ops.volume).sum = ops.volume S)
    (hvol : ops.volume S ≠ 0) :
    (∀ e ∈ subcellEntriesFor ops S L (ops.simplices subPts),
        ∃ c ∈ ops.simplices subPts,
          e = (-(ops.volume c * (L / ops.volume S)), S, some c)) ∧
      ((subcellEntriesFor ops S L (ops.simplices subPts)).map
          (fun e => -e.1)).sum = L := by
  constructor
  · intro e he
    unfold subcellEntriesFor at he
    obtain ⟨c, hc, he⟩ := List.mem_map.mp he
    exact ⟨c, hc, he.symm⟩
  · unfold subcellEntriesFor
    rw [List.map_map]
    have h1 : ((fun e : Entry => -e.1) ∘
        (fun c => ((-(ops.volume c * (L / ops.volume S)), S, some c) : Entry))) =
        fun c => ops.volume c * (L / ops.volume S) := by
      funext c
      simp
    rw [h1, List.sum_map_mul_right, hcov]
    field_simp

/-- C4 witness: the 1-D home simplex (0,4) subdivided at the pending point 2
has cells (0,2) and (2,4) with volumes summing to 4, and for ledger loss 5
the two sub-cell losses sum back to 5. -/
theorem C4_loss_conservation_witness :
    ((tri1DOps.simplices [[0], [4], [2]]).map tri1DOps.volume).sum =
        tri1DOps.volume [[0], [4]] ∧
      ((subcellEntriesFor tri1DOps [[0], [4]] 5
          (tri1DOps.simplices [[0], [4], [2]])).map (fun e => -e.1)).sum = 5 :=
  ⟨by with_unfolding_all decide,
    (C4_loss_conservation tri1DOps [[0], [4]] 5 [[0], [4], [2]]
        (by with_unfolding_all decide) (by with_unfolding_all decide)).2⟩

/-- C5: resolving an asked batch in reverse order does not reproduce the loss
ledger of request order.  Over bounds (0,3) with the sample 1 told, `ask(2)`
returns the pending corners 0 and 3; resolving them as (0,3) leaves the
ledger holding only simplex (1,3), resolving them as (3,0) leaves it holding
only simplex (0,1), although the final triangulations agree — the simplices
present when the triangulation is first built never receive ledger entries
(the `XXX: also compute losses of initial simplex` slip in the source). -/
theorem C5_order_dependence :
    (LearnerND.ask tri1DOps 2 c5PreState).map (fun r => r.1.1) =
        some [[0], [3]] ∧
      c5OrderA.losses = [([[1], [3]], 2)] ∧
      c5OrderB.losses = [([[0], [1]], 1)] ∧
      c5OrderA.losses ≠ c5OrderB.losses ∧
      c5OrderA.tri?.map tri1DOps.simplices =
        c5OrderB.tri?.map tri1DOps.simplices := by
  refine ⟨?_, ?_, ?_, ?_, ?_⟩ <;> with_unfolding_all decide

/-- C6 counterexample: a state with a sampled interior and an untouched
bounding-box corner on which `loss()` is finite — after telling 0, 1, 2 over
bounds (0,4), the corner 4 is neither sampled nor pending yet `loss()`
returns 1, not infinity. -/
theorem C6_counterexample :
    (alookup scenarioTellState.data [4]).isNone = true ∧
      ¬ [4] ∈ scenarioTellState.pending ∧
      lossVal tri1DOps scenarioTellState = ((1 : ℚ) : WithTop ℚ) ∧
      lossVal tri1DOps scenarioTellState ≠ ⊤ := by
  refine ⟨?_, ?_, ?_, ?_⟩ <;> with_unfolding_all decide

/-- C6 amended: `loss()` returns infinity exactly when the loss-ledger view
is empty; in particular it is infinite whenever fewer than two points are
sampled (and hence no triangulation exists), but an unsampled bounding-box
corner alone does not force an infinite loss. -/
theorem C6_amended (ops : TriangulationOps) (s : St) :
    (lossVal ops s = ⊤ ↔ lossesView ops s = []) ∧
      (s.tri? = none → s.data.length < 2 → lossVal ops s = ⊤) := by
  have h1 : lossVal ops s = ⊤ ↔ lossesView ops s = [] := by
    cases h : lossesView ops s with
    | nil => simp [lossVal, h]
    | cons a l => simp [lossVal, h]
  refine ⟨h1, ?_⟩
  intro htri hlen
  have hv : lossesView ops s = [] := by
    unfold lossesView triGet
    rw [htri]
    simp [hlen]
  exact h1.mpr hv

/-- C6 amended witness: the freshly constructed learner reports infinite
loss. -/
theorem C6_amended_witness :
    lossVal tri1DOps (initSt [(0, 1)] mtStream1) = ⊤ :=
  (C6_amended tri1DOps (initSt [(0, 1)] mtStream1)).2 rfl (by decide)

/-- C8 counterexample: dimensionality mismatches are not surfaced at the
mismatched `tell` — after a first value of dimensionality 2 fixes M = 2,
telling a 3-dimensional value at a new point succeeds and silently stores
the mismatched value. -/
theorem C8_counterexample :
    vdim mismatchBaseState = 2 ∧
      (LearnerND.tell tri1DOps uniform_loss [1] (some (Val.vec [1, 2, 3]))
          mismatchBaseState).isSome = true ∧
      (LearnerND.tell tri1DOps uniform_loss [1] (some (Val.vec [1, 2, 3]))
          mismatchBaseState).map (fun s => alookup s.data [1]) =
        some (some (Val.vec [1, 2, 3])) := by
  refine ⟨?_, ?_, ?_⟩ <;> with_unfolding_all decide

/-- C8 amended: the engine performs no dimensionality validation in `tell` —
telling any value at a fresh point always succeeds and stores that value
verbatim, whatever its dimensionality; a mismatch can only surface later in
operations that assemble the value array. -/
theorem C8_amended (ops : TriangulationOps)
    (lossFn : List Pt → List Val → ℚ) (s : St) (p : Pt) (v : Val)
    (h : (alookup s.data p).isNone = true) :
    ∃ s', LearnerND.tell ops lossFn p (some v) s = some s' ∧
      alookup s'.data p = some v := by
  unfold LearnerND.tell
  rw [if_neg (by rw [Option.isNone_iff_eq_none] at h; simp [h])]
  dsimp only
  rcases h1 : triGet ops (tellStore p v s) with ⟨t?, s2⟩
  have hda : s2.data = s.data ++ [(p, v)] := by
    have h2 := triGet_data ops (tellStore p v s)
    rw [h1] at h2
    simpa [tellStore] using h2
  cases t? with
  | none =>
      exact ⟨s2, rfl, by rw [hda]; exact alookup_append_self s.data p v h⟩
  | some t =>
      refine ⟨_, rfl, ?_⟩
      rw [tellInsert_data, hda]
      exact alookup_append_self s.data p v h

/-- C8 amended witness: the mismatched 3-dimensional value is stored at the
fresh point 1 over the 2-dimensional-valued base state. -/
theorem C8_amended_witness :
    ∃ s', LearnerND.tell tri1DOps uniform_loss [1] (some (Val.vec [1, 2, 3]))
        mismatchBaseState = some s' ∧
      alookup s'.data [1] = some (Val.vec [1, 2, 3]) :=
  C8_amended tri1DOps uniform_loss mismatchBaseState [1] (Val.vec [1, 2, 3])
    (by with_unfolding_all decide)

/-- C3 counterexample: `ask` can return an already pending point — over
bounds (0,1) with both corners and the point 1/3 pending (1/3 being exactly
the next draw of the private generator), the single ask takes the
no-triangulation branch and returns the pending point 1/3. -/
theorem C3_counterexample :
    [1 / 3] ∈ randomPendState.pending ∧
      (askOne tri1DOps randomPendState).map (fun r => r.1) =
        some ([1 / 3], ⊤) := by
  constructor <;> with_unfolding_all decide

/-- C1 counterexample: a reachable learner state with an untouched corner on
which `ask` raises instead of returning that corner — with samples 5 and -1
outside the bounds (0,4), the corner 0 is neither sampled nor pending, the
corner phase is entered, but registering the corner as pending walks into the
triangulated region and hits the missing ledger entry of the build-time
simplex (KeyError), so no point is returned. -/
theorem C1_counterexample :
    boundsAvailable outOfBoxState = true ∧
      boundsToDo outOfBoxState = [[0], [4]] ∧
      (askOne tri1DOps outOfBoxState).isNone = true := by
  refine ⟨?_, ?_, ?_⟩ <;> with_unfolding_all decide

/-- C1 amended: bounding-box corners are asked first, provided the untouched
corner is not covered by the already-triangulated region (automatic when all
samples lie inside the bounds): (a) whenever a corner is neither sampled nor
pending and the corner being registered is not located inside the
triangulation, `ask` returns the first such corner with priority infinity and
marks it pending; (b) from zero samples, `ask(k)` for 1 ≤ k ≤ 2^N over
nondegenerate bounds returns the first k corners, pairwise distinct, all with
infinite priority; (c) concretely, in one dimension over bounds (0,4) after
telling (0,), (1,), (2,) with value 0, a single ask returns the point 4 with
infinite priority. -/
theorem C1_amended :
    (∀ (ops : TriangulationOps) (s : St), boundsAvailable s = true →
      (∀ t, (triGet ops { s with
          pending := pinsert s.pending ((boundsToDo s).headD []) }).1 = some t →
        ops.locate t ((boundsToDo s).headD []) = none) →
      ∃ s', askOne ops s = some (((boundsToDo s).headD [], ⊤), s') ∧
        (boundsToDo s).headD [] ∈ s.boundsPoints ∧
        (alookup s.data ((boundsToDo s).headD [])).isNone = true ∧
        ¬ (boundsToDo s).headD [] ∈ s.pending ∧
        (boundsToDo s).headD [] ∈ s'.pending) ∧
      (∀ (ops : TriangulationOps) (bounds : List (ℚ × ℚ)) (g : ℕ → ℚ) (k : ℕ),
        (∀ b ∈ bounds, b.1 < b.2) → 1 ≤ k → k ≤ 2 ^ bounds.length →
        ∃ s', LearnerND.ask ops k (initSt bounds g) =
            some (((boundsProduct bounds).take k, List.replicate k ⊤), s') ∧
          ((boundsProduct bounds).take k).Nodup) ∧
      (askOne tri1DOps scenarioTellState).map (fun r => r.1) =
        some ([4], ⊤) := by
  refine ⟨?_, ?_, ?_⟩
  · intro ops s hb hloc
    cases h3 : boundsToDo s with
    | nil =>
        exfalso
        unfold boundsAvailable at hb
        rw [List.any_eq_true] at hb
        obtain ⟨p, hpmem, hpred⟩ := hb
        rw [Bool.and_eq_true] at hpred
        have hmem : p ∈ boundsToDo s := by
          unfold boundsToDo
          exact List.mem_filter.mpr ⟨hpmem, by
            rw [Bool.and_eq_true]; exact ⟨hpred.2, hpred.1⟩⟩
        rw [h3] at hmem
        cases hmem
    | cons q rest =>
        simp only [h3, List.headD_cons] at hloc ⊢
        have hq : q ∈ boundsToDo s := by
          rw [h3]; exact List.mem_cons_self _ _
        have hqprop := (List.mem_filter.mp (by
          unfold boundsToDo at hq; exact hq)).2
        rw [Bool.and_eq_true] at hqprop
        have hqbp : q ∈ s.boundsPoints :=
          (List.mem_filter.mp (by unfold boundsToDo at hq; exact hq)).1
        rcases h4 : triGet ops { s with pending := pinsert s.pending q }
          with ⟨t?, s2⟩
        have hpe : s2.pending = pinsert s.pending q := by
          have h5 := triGet_pending ops { s with pending := pinsert s.pending q }
          rw [h4] at h5
          exact h5
        have htell : tellPending ops q none s = some s2 := by
          unfold tellPending
          dsimp only
          rw [h4]
          cases t? with
          | none => rfl
          | some t =>
              dsimp only
              rw [hloc t (by rw [h4])]
        refine ⟨s2, ?_, hqbp, hqprop.1, of_decide_eq_true hqprop.2, ?_⟩
        · unfold askOne
          rw [if_pos hb]
          unfold askBoundPoint
          rw [h3]
          dsimp only
          rw [htell]
          rfl
        · rw [hpe]
          exact pinsert_mem _ _
  · intro ops bounds g k hb hk1 hk2
    have hnd := boundsProduct_nodup bounds (fun b hbb => ne_of_lt (hb b hbb))
    have hlen := boundsProduct_length bounds
    refine ⟨{ initSt bounds g with
        pending := (boundsProduct bounds).take (0 + k) }, ?_, ?_⟩
    · unfold LearnerND.ask
      rw [if_neg (by omega)]
      have h0 := askSeq_corner ops (initSt bounds g) (boundsProduct bounds)
        rfl rfl rfl hnd k 0 (by rw [hlen]; omega)
      have h1 : ({ initSt bounds g with
          pending := (boundsProduct bounds).take 0 } : St) =
          initSt bounds g := rfl
      rw [h1] at h0
      simpa using h0
    · exact List.Sublist.nodup (List.take_sublist _ _) hnd
  · with_unfolding_all decide

/-- C1 amended witness: over bounds (0,2) the fresh learner asks the corner 0
first with infinite priority, and `ask(2)` returns both corners 0 and 2,
pairwise distinct. -/
theorem C1_amended_witness :
    (∃ s', askOne tri1DOps (initSt [(0, 2)] mtStream1) =
        some (((boundsToDo (initSt [(0, 2)] mtStream1)).headD [], ⊤), s') ∧
      (boundsToDo (initSt [(0, 2)] mtStream1)).headD [] ∈
        (initSt [(0, 2)] mtStream1).boundsPoints ∧
      (alookup (initSt [(0, 2)] mtStream1).data
        ((boundsToDo (initSt [(0, 2)] mtStream1)).headD [])).isNone = true ∧
      ¬ (boundsToDo (initSt [(0, 2)] mtStream1)).headD [] ∈
        (initSt [(0, 2)] mtStream1).pending ∧
      (boundsToDo (initSt [(0, 2)] mtStream1)).headD [] ∈ s'.pending) ∧
    (∃ s', LearnerND.ask tri1DOps 2 (initSt [(0, 2)] mtStream1) =
        some (((boundsProduct [(0, 2)]).take 2, List.replicate 2 ⊤), s') ∧
      ((boundsProduct [(0, 2)]).take 2).Nodup) :=
  ⟨C1_amended.1 tri1DOps (initSt [(0, 2)] mtStream1)
      (by with_unfolding_all decide)
      (fun t ht => Option.noConfusion
        (show (none : Option (List Pt)) = some t from ht)),
    C1_amended.2.1 tri1DOps [(0, 2)] mtStream1 2
      (by intro b hb; fin_cases hb; norm_num)
      (by omega) (by with_unfolding_all decide)⟩

/-- C3 amended witness: over bounds (0,2) the first ask returns the corner 0,
which was neither sampled nor pending beforehand and is pending
afterwards. -/
theorem C3_amended_witness :
    ((alookup (initSt [(0, 2)] mtStream1).data [0]).isNone = true ∧
      ¬ [0] ∈ (initSt [(0, 2)] mtStream1).pending) ∧
      [0] ∈ c3wAfter.pending :=
  ⟨C3_amended.1 tri1DOps (initSt [(0, 2)] mtStream1) [0] ⊤ c3wAfter
      (by with_unfolding_all decide) (by with_unfolding_all rfl),
    C3_amended.2 tri1DOps (initSt [(0, 2)] mtStream1) [0] ⊤ c3wAfter
      (by with_unfolding_all rfl)⟩

theorem solveQ_mulVec {n : ℕ} (T : Matrix (Fin n) (Fin n) ℚ)
    (hdet : T.det ≠ 0) (x : Fin n → ℚ) : solveQ T (T.mulVec x) = x := by
  have hinj : Function.Injective T.mulVec := by
    intro u v huv
    have h1 : T⁻¹.mulVec (T.mulVec u) = T⁻¹.mulVec (T.mulVec v) := by rw [huv]
    rwa [Matrix.mulVec_mulVec, Matrix.mulVec_mulVec,
      Matrix.nonsing_inv_mul T (isUnit_iff_ne_zero.mpr hdet),
      Matrix.one_mulVec, Matrix.one_mulVec] at h1
  apply hinj
  unfold solveQ
  rw [Matrix.mulVec_smul_assoc, Matrix.mulVec_cramer, smul_smul,
    inv_mul_cancel₀ hdet, one_smul]

theorem centroid_mul {n : ℕ} (V : Matrix (Fin (n + 1)) (Fin n) ℚ)
    (T : Matrix (Fin n) (Fin n) ℚ) :
    centroidM (V * T) = Matrix.vecMul (centroidM V) T := by
  funext j
  unfold centroidM
  simp only [Matrix.mul_apply, Matrix.vecMul, Matrix.dotProduct]
  rw [Finset.sum_comm, Finset.sum_div]
  refine Finset.sum_congr rfl (fun k _ => ?_)
  rw [div_mul_eq_mul_div, ← Finset.sum_mul]

theorem midpoint_mul {n : ℕ} (V : Matrix (Fin (n + 1)) (Fin n) ℚ)
    (T : Matrix (Fin n) (Fin n) ℚ) (a b : Fin (n + 1)) :
    (fun k => ((V * T) a k + (V * T) b k) / 2) =
      Matrix.vecMul (fun k => (V a k + V b k) / 2) T := by
  funext j
  simp only [Matrix.mul_apply, Matrix.vecMul, Matrix.dotProduct]
  rw [← Finset.sum_add_distrib, Finset.sum_div]
  refine Finset.sum_congr rfl (fun k _ => ?_)
  ring

theorem vecMul_symm {n : ℕ} (T : Matrix (Fin n) (Fin n) ℚ)
    (hsym : T.transpose = T) (x : Fin n → ℚ) :
    Matrix.vecMul x T = T.mulVec x := by
  rw [show Matrix.vecMul x T = Matrix.vecMul x T.transpose from by rw [hsym]]
  exact Matrix.vecMul_transpose T x

/-- C7 amended: for a symmetric invertible transform (as the diagonal scale
matrix actually passed by the learner), `choose_point_in_simplex` returns the
centroid of the original simplex when the circumsphere center of the
transformed simplex lies inside it, and otherwise the midpoint (in original
coordinates) of the edge that is longest in transformed coordinates; for
asymmetric transforms the final solve does not undo the row-wise transform
and the returned point is not the centroid. -/
theorem C7_amended {n : ℕ} (V : Matrix (Fin (n + 1)) (Fin n) ℚ)
    (T : Matrix (Fin n) (Fin n) ℚ) (hdet : T.det ≠ 0)
    (hsym : T.transpose = T) :
    choosePointCore V T =
      if pointInSimplexB (circumcenterM (V * T)) (V * T) = true then
        centroidM V
      else fun k =>
        (V (longestEdgePair (V * T)).1 k +
          V (longestEdgePair (V * T)).2 k) / 2 := by
  unfold choosePointCore choosePointPlain
  by_cases h : pointInSimplexB (circumcenterM (V * T)) (V * T) = true
  · rw [if_pos h, if_pos h]
    rw [centroid_mul, vecMul_symm T hsym, solveQ_mulVec T hdet]
  · rw [if_neg h, if_neg h]
    dsimp only
    rw [midpoint_mul, vecMul_symm T hsym, solveQ_mulVec T hdet]

/-- C7 counterexample: for the invertible but asymmetric transform
[[1,1],[0,1]] on the triangle (0,0), (4,0), (2,3), the circumsphere center of
the transformed simplex lies inside it, yet the function returns (-1,3) and
not the centroid (2,1) of the simplex — the transform is not undone
correctly. -/
theorem C7_counterexample :
    pointInSimplexB (circumcenterM (cexV * cexT)) (cexV * cexT) = true ∧
      cexT.det ≠ 0 ∧
      choosePointCore cexV cexT = ![-1, 3] ∧
      centroidM cexV = ![2, 1] ∧
      choosePointCore cexV cexT ≠ centroidM cexV := by
  refine ⟨?_, ?_, ?_, ?_, ?_⟩ <;> with_unfolding_all decide

/-- C7 amended witness: with the identity transform (symmetric, invertible)
the same triangle gets its centroid (2,1). -/
theorem C7_amended_witness :
    choosePointCore cexV (1 : Matrix (Fin 2) (Fin 2) ℚ) = centroidM cexV := by
  have h := C7_amended cexV (1 : Matrix (Fin 2) (Fin 2) ℚ)
    (by simp) (by simp)
  rw [h]
  rw [if_pos (by with_unfolding_all decide)]
